import Mathlib

/-!
Verification development for the quadratic-divergence intertemporal
constraint solver (`utilities_quadratic.py`).

The numerical arrays of the Python code are embedded as lists of rationals;
boolean indicator matrices as lists of lists of booleans.  Each definition
below transcribes one function (or one block) of the source; spec-side
definitions used for refinement comparisons are clearly marked.
-/

namespace Beliefs

/-- Arithmetic mean of a list of rationals (`np.mean` on a nonempty array). -/
def meanQ (l : List ℚ) : ℚ := l.sum / (l.length : ℚ)

/-- Dot product of two rational vectors (`a @ b`). -/
def dotQ (a b : List ℚ) : ℚ := ((a.zip b).map (fun p => p.1 * p.2)).sum

/-- Dot product of a boolean indicator row with a rational vector
(numpy promotes the booleans to 0/1 floats). -/
def dotB (mask : List Bool) (v : List ℚ) : ℚ :=
  dotQ (mask.map (fun b => if b then 1 else 0)) v

/-- Boolean-mask row selection (`arr[selector]`). -/
def select {α : Type} (mask : List Bool) (xs : List α) : List α :=
  ((mask.zip xs).filter (fun p => p.1)).map (fun p => p.2)

/-- Column `j` of a boolean matrix (`m[:, j]`). -/
def getColB (j : ℕ) (m : List (List Bool)) : List Bool :=
  m.map (fun r => r.getD j false)

/-- Columns `[i, i+n)` of one row (`row[i : i+n]`). -/
def colSlice (i n : ℕ) (row : List ℚ) : List ℚ := (row.drop i).take n

/-- Three-way zipWith, used to combine the row-aligned arrays. -/
def zipW3 {α β γ δ : Type} (f : α → β → γ → δ) : List α → List β → List γ → List δ
  | a :: as, b :: bs, c :: cs => f a b c :: zipW3 f as bs cs
  | _, _, _ => []

/-- The clip `x[x<0] = 0` applied to one entry. -/
def clip0 (a : ℚ) : ℚ := if a < 0 then 0 else a

/-- Transcription of `_objective_numba(f, g, pd_lag_indicator, pd_indicator_float, state, n_f, v, ξ, λ)`:
the dual objective of the per-state quadratic-divergence problem, transcribed
line by line from the source (`term_2` divides by `-ξ`). -/
def objective_numba (f : List (List ℚ)) (g : List ℚ) (pd_lag_indicator : List (List Bool))
    (pd_indicator_float : List (List ℚ)) (state n_f : ℕ) (v : List ℚ) (ξ : ℚ)
    (lam : List ℚ) : ℚ :=
  let lam1 := lam.dropLast
  let lam2 := lam.getLastD 0
  let selector := getColB (state - 1) pd_lag_indicator
  let gs := select selector g
  let iv := (select selector pd_indicator_float).map (fun r => dotQ r v)
  let fs := (select selector (f.map (colSlice ((state - 1) * n_f) n_f))).map
    (fun r => dotQ r lam1)
  let x := zipW3 (fun a b c => (1 / 2 : ℚ) + (a + b + c + lam2) / (-ξ)) gs iv fs
  let xc := x.map clip0
  meanQ (xc.map (fun a => a ^ 2)) * (ξ / 2) + lam2

/-- Objective Evaluator as the spec words it (§4.1): restrict the arrays to the
rows of the active state, form `z = 0.5 - (g + next_indicator·v + f_block·λ_1 + λ_2)/ξ`,
clip negative entries of `z` to 0, return `mean(z²)·(ξ/2) + λ_2`. -/
def objectiveSpec (f : List (List ℚ)) (g : List ℚ) (pd_lag_indicator : List (List Bool))
    (pd_indicator_float : List (List ℚ)) (state n_f : ℕ) (v : List ℚ) (ξ : ℚ)
    (lam : List ℚ) : ℚ :=
  let lam1 := lam.dropLast
  let lam2 := lam.getLastD 0
  let selector := getColB (state - 1) pd_lag_indicator
  let gs := select selector g
  let iv := (select selector pd_indicator_float).map (fun r => dotQ r v)
  let fs := (select selector (f.map (colSlice ((state - 1) * n_f) n_f))).map
    (fun r => dotQ r lam1)
  let z := zipW3 (fun a b c => (1 / 2 : ℚ) - (a + b + c + lam2) / ξ) gs iv fs
  let zc := z.map (fun a => max a 0)
  meanQ (zc.map (fun a => a ^ 2)) * (ξ / 2) + lam2

theorem zipW3_congr {α β γ δ : Type} (f g : α → β → γ → δ)
    (h : ∀ a b c, f a b c = g a b c) :
    ∀ (l₁ : List α) (l₂ : List β) (l₃ : List γ), zipW3 f l₁ l₂ l₃ = zipW3 g l₁ l₂ l₃ := by
  intro l₁
  induction l₁ with
  | nil => intro l₂ l₃; cases l₂ <;> cases l₃ <;> simp [zipW3]
  | cons a as ih =>
    intro l₂ l₃
    cases l₂ with
    | nil => simp [zipW3]
    | cons b bs =>
      cases l₃ with
      | nil => simp [zipW3]
      | cons c cs => simp [zipW3, h, ih]

theorem clip0_eq_max (a : ℚ) : clip0 a = max a 0 := by
  unfold clip0
  rcases lt_or_le a 0 with h | h
  · simp [h, le_of_lt h]
  · simp [not_lt.mpr h, h]

/-- Claim C1: for every state index s ∈ {1,2,3}, value vector v, penalty ξ > 0
and dual vector λ of length k+1, the Objective Evaluator restricts all arrays
to the rows where the lag indicator for state s is true, forms
`z = 0.5 - (g + next_indicator·v + f_block·λ_1 + λ_2)/ξ`, replaces every
negative component of z by 0, and returns `mean(z²)·(ξ/2) + λ_2`. -/
theorem C1_objective_matches_spec (f : List (List ℚ)) (g : List ℚ)
    (pd_lag_indicator : List (List Bool)) (pd_indicator_float : List (List ℚ))
    (state n_f : ℕ) (v : List ℚ) (ξ : ℚ) (lam : List ℚ)
    (hstate : state = 1 ∨ state = 2 ∨ state = 3) (hξ : 0 < ξ)
    (hlam : lam.length = n_f + 1) :
    objective_numba f g pd_lag_indicator pd_indicator_float state n_f v ξ lam =
      objectiveSpec f g pd_lag_indicator pd_indicator_float state n_f v ξ lam := by
  unfold objective_numba objectiveSpec
  have hz : ∀ (l₁ l₂ l₃ : List ℚ),
      zipW3 (fun a b c => (1 / 2 : ℚ) + (a + b + c + lam.getLastD 0) / (-ξ)) l₁ l₂ l₃ =
      zipW3 (fun a b c => (1 / 2 : ℚ) - (a + b + c + lam.getLastD 0) / ξ) l₁ l₂ l₃ := by
    intro l₁ l₂ l₃
    refine zipW3_congr _ _ ?_ l₁ l₂ l₃
    intro a b c
    rw [div_neg]
    ring
  have hc : ∀ l : List ℚ, l.map clip0 = l.map (fun a => max a 0) := by
    intro l
    exact List.map_congr_left (fun a _ => clip0_eq_max a)
  simp only [hz, hc]

/-- Witness for C1 at a concrete input. -/
theorem C1_objective_matches_spec_witness :
    objective_numba [[2, 3]] [4] [[true]] [[1]] 1 1 [5] 2 [1, 1] =
      objectiveSpec [[2, 3]] [4] [[true]] [[1]] 1 1 [5] 2 [1, 1] :=
  C1_objective_matches_spec [[2, 3]] [4] [[true]] [[1]] 1 1 [5] 2 [1, 1]
    (Or.inl rfl) (by norm_num) (by simp)

/-- One time-period observation: moment value `g`, next-period regime indicator
`ind` (a row of `pd_indicator`), current-period regime indicator `lagInd`
(a row of `pd_lag_indicator`), and the factor row `f`. -/
structure Row where
  g : ℚ
  ind : List Bool
  lagInd : List Bool
  f : List ℚ
deriving DecidableEq

/-- The discount-factor distortion `M` computed after convergence in `iterate`
(lines 137–143): `0.5 - 1/ξ * (±g + pd_indicator@v - pd_lag_indicator@v - μ
+ f@λ_1 + pd_lag_indicator@λ_2)`, then `M[M<0] = 0`; the sign on `g` is `+`
in lower-bound mode and `-` in upper-bound mode. -/
def M_code (lower : Bool) (rows : List Row) (v lam1 lam2 : List ℚ) (μ ξ : ℚ) : List ℚ :=
  rows.map (fun r =>
    clip0 ((1 / 2 : ℚ) - 1 / ξ *
      ((if lower then r.g else -r.g) + dotB r.ind v - dotB r.lagInd v - μ +
        dotQ r.f lam1 + dotB r.lagInd lam2)))

/-- Distortion `M` as the spec words it (§4.3): `0.5 − (±g + next_indicator·v −
lag_indicator·v − μ + f·λ_1 + lag_indicator·λ_2)/ξ`, clipped at 0 elementwise. -/
def M_spec (lower : Bool) (rows : List Row) (v lam1 lam2 : List ℚ) (μ ξ : ℚ) : List ℚ :=
  rows.map (fun r =>
    max ((1 / 2 : ℚ) -
      ((if lower then r.g else -r.g) + dotB r.ind v - dotB r.lagInd v - μ +
        dotQ r.f lam1 + dotB r.lagInd lam2) / ξ) 0)

theorem M_code_eq_spec (lower : Bool) (rows : List Row) (v lam1 lam2 : List ℚ) (μ ξ : ℚ) :
    M_code lower rows v lam1 lam2 μ ξ = M_spec lower rows v lam1 lam2 μ ξ := by
  unfold M_code M_spec
  refine List.map_congr_left (fun r _ => ?_)
  rw [clip0_eq_max]
  congr 1
  ring

theorem M_code_nonneg (lower : Bool) (rows : List Row) (v lam1 lam2 : List ℚ) (μ ξ : ℚ) :
    ∀ m ∈ M_code lower rows v lam1 lam2 μ ξ, 0 ≤ m := by
  intro m hm
  unfold M_code at hm
  obtain ⟨r, _, rfl⟩ := List.mem_map.mp hm
  rw [clip0_eq_max]
  exact le_max_right _ 0

/-- Claim C2: the distortion vector `M` returned by `iterate` equals
`0.5 − (±g + next_indicator·v − lag_indicator·v − μ + f·λ_1 + lag_indicator·λ_2)/ξ`
(sign `+g` in lower-bound mode, `−g` in upper-bound mode) with every negative
component replaced by 0, and consequently for any ξ > 0 every component of the
returned `M` is nonnegative. -/
theorem C2_M_formula_and_nonneg (lower : Bool) (rows : List Row)
    (v lam1 lam2 : List ℚ) (μ ξ : ℚ) (hξ : 0 < ξ) :
    M_code lower rows v lam1 lam2 μ ξ = M_spec lower rows v lam1 lam2 μ ξ ∧
      ∀ m ∈ M_code lower rows v lam1 lam2 μ ξ, 0 ≤ m :=
  ⟨M_code_eq_spec lower rows v lam1 lam2 μ ξ, M_code_nonneg lower rows v lam1 lam2 μ ξ⟩

/-- Witness for C2: a concrete one-row dataset where the clip is active. -/
theorem C2_M_formula_and_nonneg_witness :
    M_code true [⟨10, [true], [true], [2]⟩] [3] [1] [0] 0 1 =
        M_spec true [⟨10, [true], [true], [2]⟩] [3] [1] [0] 0 1 ∧
      ∀ m ∈ M_code true [⟨10, [true], [true], [2]⟩] [3] [1] [0] 0 1, 0 ≤ m :=
  C2_M_formula_and_nonneg true [⟨10, [true], [true], [2]⟩] [3] [1] [0] 0 1 (by norm_num)

/-- The outer update of the fixed-point loop (lines 128–132): `μ = v_μ[0]`,
`v = v_μ - v_μ[0]`, `error = np.max(np.abs(v - v_old))`. -/
def outerUpdate (vμ vold : List ℚ) : ℚ × List ℚ × ℚ :=
  let μ := vμ.headD 0
  let v := vμ.map (fun a => a - μ)
  let error := (List.zipWith (fun a b => |a - b|) v vold).foldr max 0
  (μ, v, error)

theorem zipWith_absdiff_nonneg :
    ∀ (l₁ l₂ : List ℚ), ∀ x ∈ List.zipWith (fun a b => |a - b|) l₁ l₂, 0 ≤ x := by
  intro l₁
  induction l₁ with
  | nil => intro l₂ x hx; simp at hx
  | cons a as ih =>
    intro l₂ x hx
    cases l₂ with
    | nil => simp at hx
    | cons b bs =>
      rcases List.mem_cons.mp hx with rfl | hx
      · exact abs_nonneg _
      · exact ih bs x hx

theorem foldr_max_le (l : List ℚ) : ∀ x ∈ l, x ≤ l.foldr max 0 := by
  induction l with
  | nil => intro x hx; cases hx
  | cons a as ih =>
    intro x hx
    rcases List.mem_cons.mp hx with rfl | hx
    · exact le_max_left _ _
    · exact le_trans (ih x hx) (le_max_right _ _)

theorem foldr_max_mem (l : List ℚ) (hne : l ≠ []) (hpos : ∀ x ∈ l, 0 ≤ x) :
    l.foldr max 0 ∈ l := by
  induction l with
  | nil => exact absurd rfl hne
  | cons a as ih =>
    cases as with
    | nil =>
      simp only [List.foldr]
      have ha : 0 ≤ a := hpos a (List.mem_singleton.mpr rfl)
      simp [max_eq_left ha]
    | cons b bs =>
      rcases le_total (List.foldr max 0 (b :: bs)) a with h | h
      · simp only [List.foldr] at *
        rw [max_eq_left h]
        exact List.mem_cons_self a _
      · have hmem := ih (by simp) (fun x hx => hpos x (List.mem_cons_of_mem a hx))
        simp only [List.foldr] at *
        rw [max_eq_right h]
        exact List.mem_cons_of_mem a hmem

/-- Claim C3: after every completed outer iteration, `μ` is the first state's
value increment, the value vector is `v_increment − μ` (so `v[0] = 0` exactly),
and the loop error is the maximum absolute component-wise change of `v`
against the previous iterate: it bounds every component change and is attained
at one of them. -/
theorem C3_outer_update (vμ vold : List ℚ) (h₁ : vμ ≠ []) (h₂ : vold ≠ []) :
    (outerUpdate vμ vold).1 = vμ.headD 0 ∧
      (outerUpdate vμ vold).2.1 = vμ.map (fun a => a - vμ.headD 0) ∧
      (outerUpdate vμ vold).2.1.head? = some 0 ∧
      (∀ d ∈ List.zipWith (fun a b => |a - b|) (outerUpdate vμ vold).2.1 vold,
        d ≤ (outerUpdate vμ vold).2.2) ∧
      (outerUpdate vμ vold).2.2 ∈
        List.zipWith (fun a b => |a - b|) (outerUpdate vμ vold).2.1 vold := by
  obtain ⟨a, as, rfl⟩ := List.exists_cons_of_ne_nil h₁
  obtain ⟨b, bs, rfl⟩ := List.exists_cons_of_ne_nil h₂
  refine ⟨rfl, rfl, ?_, ?_, ?_⟩
  · simp [outerUpdate]
  · intro d hd
    exact foldr_max_le _ d hd
  · refine foldr_max_mem _ ?_ ?_
    · simp [outerUpdate]
    · exact zipWith_absdiff_nonneg _ _

/-- Witness for C3 at a concrete update step. -/
theorem C3_outer_update_witness :
    (outerUpdate [2, 5, 3] [0, 1, 0]).1 = ([2, 5, 3] : List ℚ).headD 0 ∧
      (outerUpdate [2, 5, 3] [0, 1, 0]).2.1 =
        ([2, 5, 3] : List ℚ).map (fun a => a - ([2, 5, 3] : List ℚ).headD 0) ∧
      (outerUpdate [2, 5, 3] [0, 1, 0]).2.1.head? = some 0 ∧
      (∀ d ∈ List.zipWith (fun a b => |a - b|) (outerUpdate [2, 5, 3] [0, 1, 0]).2.1 [0, 1, 0],
        d ≤ (outerUpdate [2, 5, 3] [0, 1, 0]).2.2) ∧
      (outerUpdate [2, 5, 3] [0, 1, 0]).2.2 ∈
        List.zipWith (fun a b => |a - b|) (outerUpdate [2, 5, 3] [0, 1, 0]).2.1 [0, 1, 0] :=
  C3_outer_update [2, 5, 3] [0, 1, 0] (by simp) (by simp)

/-- The bisection loop of `find_ξ` (lines 231–256), with the result of
`iterate` abstracted into `REf : ξ ↦ RE`.  The fuel argument is the number of
remaining `for` iterations; when it reaches 0 without a break, `count` has hit
`max_iter`, the diagnostic fires (second component `true`) and the current —
just updated, never evaluated — candidate `ξ` is returned. -/
def findXiLoop (REf : ℚ → ℚ) (minRE x tol : ℚ) : ℕ → ℚ → ℚ → ℚ → ℚ × Bool
  | 0, ξ, _, _ => (ξ, true)
  | n + 1, ξ, lb, ub =>
    let RE := REf ξ
    let error := RE / minRE - x
    if |error| < tol then (ξ, false)
    else if error < 0 then findXiLoop REf minRE x tol n ((lb + ξ) / 2) lb ξ
    else findXiLoop REf minRE x tol n ((ξ + ub) / 2) ξ ub

/-- The list of ξ values at which `iterate` is actually evaluated during the
bisection loop, in order. -/
def findXiEvals (REf : ℚ → ℚ) (minRE x tol : ℚ) : ℕ → ℚ → ℚ → ℚ → List ℚ
  | 0, _, _, _ => []
  | n + 1, ξ, lb, ub =>
    ξ ::
      (if |REf ξ / minRE - x| < tol then []
       else if REf ξ / minRE - x < 0 then findXiEvals REf minRE x tol n ((lb + ξ) / 2) lb ξ
       else findXiEvals REf minRE x tol n ((ξ + ub) / 2) ξ ub)

/-- Calibrator `find_ξ(x, lower, tol, max_iter)`: first runs `iterate` at the reference
`ξ = 100` to obtain `min_RE`, then bisects starting from `ξ = 1` with bracket
`[0, 100]`.  With `max_iter = 0` the Python body never binds `ξ` and the final
`return ξ` raises, modelled as `none`. -/
def find_ξ (REf : ℚ → ℚ) (x tol : ℚ) (maxIter : ℕ) : Option (ℚ × Bool) :=
  let minRE := REf 100
  if maxIter = 0 then none else some (findXiLoop REf minRE x tol maxIter 1 0 100)

/-- Claim C4: `find_ξ` bisects starting at ξ = 1 with bracket [0, 100], where
`min_RE` is the RE from `iterate` at the reference ξ = 100; each step evaluates
`iterate` at the current ξ, forms `error = RE/min_RE − x`, returns the current ξ
when `|error| < tol`, and otherwise shrinks the upper bound to ξ and moves ξ to
the midpoint with the lower bound when `error < 0`, else shrinks the lower
bound to ξ and moves ξ to the midpoint with the upper bound. -/
theorem C4_find_ξ_bisection (REf : ℚ → ℚ) (x tol : ℚ) :
    (∀ n : ℕ, find_ξ REf x tol (n + 1) =
      some (findXiLoop REf (REf 100) x tol (n + 1) 1 0 100)) ∧
    (∀ (m : ℚ) (n : ℕ) (ξ lb ub : ℚ), |REf ξ / m - x| < tol →
      findXiLoop REf m x tol (n + 1) ξ lb ub = (ξ, false)) ∧
    (∀ (m : ℚ) (n : ℕ) (ξ lb ub : ℚ), ¬ |REf ξ / m - x| < tol → REf ξ / m - x < 0 →
      findXiLoop REf m x tol (n + 1) ξ lb ub =
        findXiLoop REf m x tol n ((lb + ξ) / 2) lb ξ) ∧
    (∀ (m : ℚ) (n : ℕ) (ξ lb ub : ℚ), ¬ |REf ξ / m - x| < tol → ¬ REf ξ / m - x < 0 →
      findXiLoop REf m x tol (n + 1) ξ lb ub =
        findXiLoop REf m x tol n ((ξ + ub) / 2) ξ ub) := by
  refine ⟨?_, ?_, ?_, ?_⟩
  · intro n; simp [find_ξ]
  · intro m n ξ lb ub h; simp [findXiLoop, h]
  · intro m n ξ lb ub h₁ h₂; simp [findXiLoop, h₁, h₂]
  · intro m n ξ lb ub h₁ h₂; simp [findXiLoop, h₁, h₂]

/-- Witness for C4: a converging first step at a concrete input. -/
theorem C4_find_ξ_bisection_witness :
    findXiLoop (fun t => t) 100 0 1 1 1 0 100 = (1, false) :=
  (C4_find_ξ_bisection (fun t => t) 0 1).2.1 100 0 1 0 100 (by rw [abs_lt]; norm_num)

/-- Counterexample for C8 as stated: with a constant relative-entropy map,
target 2 and tolerance 1/10, a single bisection step never converges; the last
ξ at which the iterator is evaluated is 1, yet `find_ξ` returns 1/2 (the
midpoint computed after that evaluation) together with the diagnostic flag. -/
theorem C8_counterexample :
    find_ξ (fun _ => (1 : ℚ)) 2 (1 / 10) 1 = some (1 / 2, true) ∧
      findXiEvals (fun _ => (1 : ℚ)) 1 2 (1 / 10) 1 1 0 100 = [1] ∧
      ((1 : ℚ) / 2) ≠ 1 := by
  have key : ¬ |(1 : ℚ) / 1 - 2| < 1 / 10 := by
    have h : (1 : ℚ) / 1 - 2 = -1 := by norm_num
    rw [h, abs_neg, abs_one]
    norm_num
  have key2 : (1 : ℚ) / 1 - 2 < 0 := by norm_num
  refine ⟨?_, ?_, by norm_num⟩
  · simp [find_ξ, findXiLoop, key, key2]
    norm_num
  · simp [findXiEvals, key, key2]

/-- Claim C8 (amended): if the bisection budget is exhausted without reaching
tolerance, `find_ξ` emits the diagnostic and returns the current bisection
candidate — the midpoint computed after the last evaluation of the iterator —
which is in general not the ξ at which the iterator was last evaluated. -/
theorem C8_exhaustion_returns_midpoint (REf : ℚ → ℚ) (m x tol ξ lb ub : ℚ)
    (h : ¬ |REf ξ / m - x| < tol) :
    findXiLoop REf m x tol 1 ξ lb ub =
        ((if REf ξ / m - x < 0 then (lb + ξ) / 2 else (ξ + ub) / 2), true) ∧
      (findXiEvals REf m x tol 1 ξ lb ub).getLast? = some ξ := by
  constructor
  · rcases lt_or_le (REf ξ / m - x) 0 with h₂ | h₂
    · simp [findXiLoop, h, h₂]
    · simp [findXiLoop, h, not_lt.mpr h₂]
  · simp [findXiEvals]

/-- Witness for the amended C8 at a concrete input. -/
theorem C8_exhaustion_returns_midpoint_witness :
    findXiLoop (fun _ => (1 : ℚ)) 1 2 (1 / 10) 1 1 0 100 =
        ((if (1 : ℚ) / 1 - 2 < 0 then ((0 : ℚ) + 1) / 2 else ((1 : ℚ) + 100) / 2), true) ∧
      (findXiEvals (fun _ => (1 : ℚ)) 1 2 (1 / 10) 1 1 0 100).getLast? = some 1 :=
  C8_exhaustion_returns_midpoint (fun _ => (1 : ℚ)) 1 2 (1 / 10) 1 0 100 (by norm_num)

/-- The three `scipy.optimize.minimize` methods tried by `_min_objective`,
in their source order. -/
inductive Method where
  | LBFGSB
  | BFGS
  | CG
deriving DecidableEq

/-- Outcome of one `scipy.optimize.minimize` call: success flag, optimal
objective value `fun`, optimizer `x`, and diagnostic message. -/
structure OptResult where
  success : Bool
  fval : ℚ
  x : List ℚ
  msg : String
deriving DecidableEq

/-- The warning printed by `_min_objective` when all methods fail
(line 89 of the source). -/
def warnMsg (ξ tol : ℚ) : String :=
  "---Warning: the convex solver fails when " ++ "ξ = " ++ toString ξ ++
    ", tolerance = " ++ toString tol ++ "--- "

/-- Transcription of `_min_objective` (lines 76–96), with `scipy.optimize.minimize` abstracted
into `minimizeO : method → x0 → tol → maxiter → OptResult`: try L-BFGS-B, BFGS,
CG in order from the all-ones start vector of length `n_f + 1`, accept the
first success, else keep the last attempt; warn iff the kept attempt failed;
return `(-model.fun, model.x[:-1], model.x[-1])` with the optional warning. -/
def min_objective (minimizeO : Method → List ℚ → ℚ → ℕ → OptResult)
    (n_f : ℕ) (tol : ℚ) (maxIter : ℕ) (ξ : ℚ) :
    (ℚ × List ℚ × ℚ) × Option String :=
  let x0 := List.replicate (n_f + 1) (1 : ℚ)
  let r1 := minimizeO .LBFGSB x0 tol maxIter
  let model :=
    if r1.success then r1
    else
      let r2 := minimizeO .BFGS x0 tol maxIter
      if r2.success then r2 else minimizeO .CG x0 tol maxIter
  let warning := if model.success then none else some (warnMsg ξ tol)
  ((-model.fval, model.x.dropLast, model.x.getLastD 0), warning)

/-- Claim C6: the Per-State Solver tries the three methods in a fixed order
from the all-ones starting vector of length k+1 and accepts the first success
— one conjunct per reachable case: L-BFGS-B succeeds; L-BFGS-B fails and BFGS
succeeds; L-BFGS-B and BFGS fail and CG succeeds (CG's result accepted, no
warning); all three fail, in which case the warning carrying the current ξ and
tolerance is emitted and the last attempt is still used.  In every case the
returned triple is `(-optimal objective, λ[:-1], λ[-1])`. -/
theorem C6_min_objective_fallbacks (minimizeO : Method → List ℚ → ℚ → ℕ → OptResult)
    (n_f : ℕ) (tol : ℚ) (maxIter : ℕ) (ξ : ℚ) :
    (∀ r, r = minimizeO .LBFGSB (List.replicate (n_f + 1) 1) tol maxIter →
      r.success = true →
      min_objective minimizeO n_f tol maxIter ξ =
        ((-r.fval, r.x.dropLast, r.x.getLastD 0), none)) ∧
    (∀ r₁ r₂, r₁ = minimizeO .LBFGSB (List.replicate (n_f + 1) 1) tol maxIter →
      r₂ = minimizeO .BFGS (List.replicate (n_f + 1) 1) tol maxIter →
      r₁.success = false → r₂.success = true →
      min_objective minimizeO n_f tol maxIter ξ =
        ((-r₂.fval, r₂.x.dropLast, r₂.x.getLastD 0), none)) ∧
    (∀ r₁ r₂ r₃, r₁ = minimizeO .LBFGSB (List.replicate (n_f + 1) 1) tol maxIter →
      r₂ = minimizeO .BFGS (List.replicate (n_f + 1) 1) tol maxIter →
      r₃ = minimizeO .CG (List.replicate (n_f + 1) 1) tol maxIter →
      r₁.success = false → r₂.success = false → r₃.success = true →
      min_objective minimizeO n_f tol maxIter ξ =
        ((-r₃.fval, r₃.x.dropLast, r₃.x.getLastD 0), none)) ∧
    (∀ r₁ r₂ r₃, r₁ = minimizeO .LBFGSB (List.replicate (n_f + 1) 1) tol maxIter →
      r₂ = minimizeO .BFGS (List.replicate (n_f + 1) 1) tol maxIter →
      r₃ = minimizeO .CG (List.replicate (n_f + 1) 1) tol maxIter →
      r₁.success = false → r₂.success = false → r₃.success = false →
      min_objective minimizeO n_f tol maxIter ξ =
        ((-r₃.fval, r₃.x.dropLast, r₃.x.getLastD 0), some (warnMsg ξ tol))) := by
  refine ⟨?_, ?_, ?_, ?_⟩
  · intro r hr hs
    subst hr
    simp [min_objective, hs]
  · intro r₁ r₂ h₁ h₂ hf hs
    subst h₁; subst h₂
    simp [min_objective, hf, hs]
  · intro r₁ r₂ r₃ h₁ h₂ h₃ f₁ f₂ s₃
    subst h₁; subst h₂; subst h₃
    simp [min_objective, f₁, f₂, s₃]
  · intro r₁ r₂ r₃ h₁ h₂ h₃ f₁ f₂ f₃
    subst h₁; subst h₂; subst h₃
    simp [min_objective, f₁, f₂, f₃]

/-- Witness for C6: a concrete oracle on which every method fails. -/
theorem C6_min_objective_fallbacks_witness :
    min_objective (fun _ _ _ _ => ⟨false, 5, [1, 2, 3, 4, 9], "no"⟩) 4 (1 / 2) 7 3 =
      ((-5, [1, 2, 3, 4], 9), some (warnMsg 3 (1 / 2))) :=
  (C6_min_objective_fallbacks (fun _ _ _ _ => ⟨false, 5, [1, 2, 3, 4, 9], "no"⟩)
      4 (1 / 2) 7 3).2.2.2
    ⟨false, 5, [1, 2, 3, 4, 9], "no"⟩ ⟨false, 5, [1, 2, 3, 4, 9], "no"⟩
    ⟨false, 5, [1, 2, 3, 4, 9], "no"⟩ rfl rfl rfl rfl rfl rfl

/-- The mutable fields of the solver instance that `iterate` touches. -/
structure SolverState where
  g : Option (List ℚ)
  ξ : ℚ
  lower : Bool
  v : Option (List ℚ)
  μ : Option ℚ
deriving DecidableEq

/-- The entry of `iterate` (lines 103–109): raise when `self.g` is `None`,
otherwise set `self.ξ` and `self.lower` and run the body (abstracted as
`run`, which returns the mutated state and the result mapping). -/
def iterateEntry {α : Type} (s : SolverState) (ξ : ℚ) (lower : Bool)
    (run : SolverState → SolverState × α) : Except String (SolverState × α) :=
  match s.g with
  | none => Except.error "Sorry, please define self.g first!"
  | some _ => Except.ok (run { s with ξ := ξ, lower := lower })

/-- Claim C7: if the moment vector g has not been set, `iterate` fails
immediately with the configuration error, produces no partial result for any
body, and no mutated solver state is ever returned. -/
theorem C7_iterate_requires_g {α : Type} (s : SolverState) (ξ : ℚ) (lower : Bool)
    (hg : s.g = none) :
    (∀ run : SolverState → SolverState × α,
      iterateEntry s ξ lower run = Except.error "Sorry, please define self.g first!") ∧
    (∀ (run : SolverState → SolverState × α) (s' : SolverState) (a : α),
      iterateEntry s ξ lower run ≠ Except.ok (s', a)) := by
  constructor
  · intro run
    unfold iterateEntry
    rw [hg]
  · intro run s' a h
    unfold iterateEntry at h
    rw [hg] at h
    exact Except.noConfusion h

/-- Witness for C7 at a concrete unset state. -/
theorem C7_iterate_requires_g_witness :
    (∀ run : SolverState → SolverState × ℚ,
      iterateEntry ⟨none, 0, true, none, none⟩ 1 true run =
        Except.error "Sorry, please define self.g first!") ∧
    (∀ (run : SolverState → SolverState × ℚ) (s' : SolverState) (a : ℚ),
      iterateEntry ⟨none, 0, true, none, none⟩ 1 true run ≠ Except.ok (s', a)) :=
  C7_iterate_requires_g ⟨none, 0, true, none, none⟩ 1 true rfl

/-- The outer fixed-point loop of `iterate` (lines 111–133), with the
per-state solve abstracted into `solveVμ : v → state index → v_increment`.
The loop itself has no iteration cap in the source — the constructor's
`max_iter` is only passed to `scipy.optimize.minimize` inside the per-state
solve — so the embedding uses explicit fuel: `none` means the loop is still
running after `fuel` iterations.  State: current error, iteration count and
value vector; on `count = 0` the body first zeroes `v`. -/
def iterLoop (solveVμ : List ℚ → ℕ → ℚ) (tol : ℚ) :
    ℕ → ℚ → ℕ → List ℚ → Option (List ℚ × ℕ)
  | 0, error, count, v => if error ≤ tol then some (v, count) else none
  | fuel + 1, error, count, v =>
    if error ≤ tol then some (v, count)
    else
      iterLoop solveVμ tol fuel
        (outerUpdate ((List.range 3).map (solveVμ (if count = 0 then List.replicate 3 0 else v)))
          (if count = 0 then List.replicate 3 0 else v)).2.2
        (count + 1)
        (outerUpdate ((List.range 3).map (solveVμ (if count = 0 then List.replicate 3 0 else v)))
          (if count = 0 then List.replicate 3 0 else v)).2.1

/-- A per-state solve whose second state's value increment keeps growing by 1,
so the outer error never falls below 1. -/
def driftSolve (v : List ℚ) (k : ℕ) : ℚ := if k = 1 then v.getD 1 0 + 1 else 0

theorem driftSolve_vμ (n : ℚ) :
    (List.range 3).map (driftSolve [0, n, 0]) = [0, n + 1, 0] := by
  simp [List.range_succ, driftSolve]

theorem driftSolve_update (n : ℚ) :
    outerUpdate [0, n + 1, 0] [0, n, 0] = (0, [0, n + 1, 0], 1) := by
  unfold outerUpdate
  norm_num [add_sub_cancel_left]

theorem driftSolve_update0 : outerUpdate [0, (1 : ℚ), 0] [0, 0, 0] = (0, [0, 1, 0], 1) := by
  unfold outerUpdate
  norm_num

theorem iterLoop_drift_none (tol : ℚ) (htol : tol < 1) :
    ∀ (fuel : ℕ) (n : ℚ) (count : ℕ), count ≠ 0 →
      iterLoop driftSolve tol fuel 1 count [0, n, 0] = none := by
  intro fuel
  induction fuel with
  | zero =>
    intro n count _
    simp [iterLoop, not_le.mpr htol]
  | succ f ih =>
    intro n count hc
    rw [iterLoop, if_neg (not_le.mpr htol)]
    simp only [if_neg hc, driftSolve_vμ, driftSolve_update]
    exact ih (n + 1) (count + 1) (Nat.succ_ne_zero count)

/-- Claim C9: the outer fixed-point loop exits exactly when the error drops to
the tolerance or below — the constructor's `max_iter` never appears in it —
and for some per-state solve behaviour the loop runs forever: it exhausts any
amount of fuel. -/
theorem C9_outer_loop_uncapped :
    (∀ (solveVμ : List ℚ → ℕ → ℚ) (tol : ℚ) (fuel : ℕ) (error : ℚ) (count : ℕ)
      (v : List ℚ), error ≤ tol →
        iterLoop solveVμ tol fuel error count v = some (v, count)) ∧
    (∀ tol : ℚ, tol < 1 → ∃ solveVμ : List ℚ → ℕ → ℚ,
      ∀ fuel : ℕ, iterLoop solveVμ tol fuel 1 0 [] = none) := by
  constructor
  · intro solveVμ tol fuel error count v h
    cases fuel with
    | zero => simp [iterLoop, h]
    | succ f => simp [iterLoop, h]
  · intro tol htol
    refine ⟨driftSolve, fun fuel => ?_⟩
    cases fuel with
    | zero => simp [iterLoop, not_le.mpr htol]
    | succ f =>
      rw [iterLoop, if_neg (not_le.mpr htol)]
      have hrep : List.replicate 3 (0 : ℚ) = [0, 0, 0] := rfl
      simp only [hrep, if_true, eq_self_iff_true, driftSolve_vμ 0, zero_add,
        driftSolve_update0]
      exact iterLoop_drift_none tol htol f 1 1 one_ne_zero

/-- Witness for C9: immediate exit at a concrete converged input, and
fuel exhaustion of the drifting loop at a concrete tolerance and fuel. -/
theorem C9_outer_loop_uncapped_witness :
    iterLoop (fun _ _ => 0) (1 / 2) 3 0 5 [1, 2] = some ([1, 2], 5) :=
  C9_outer_loop_uncapped.1 (fun _ _ => 0) (1 / 2) 3 0 5 [1, 2] (by norm_num)

/-- Rows currently in state `i` (0-based): `arr[pd_lag_indicator[:, i]]`. -/
def selRows (rows : List Row) (i : ℕ) : List Row :=
  rows.filter (fun r => r.lagInd.getD i false)

/-- Row–distortion pairs currently in state `i`: the simultaneous selection of
`rows` and the aligned vector `M` by `pd_lag_indicator[:, i]`. -/
def zSel (rows : List Row) (M : List ℚ) (i : ℕ) : List (Row × ℚ) :=
  (rows.zip M).filter (fun p => p.1.lagInd.getD i false)

/-- Entry `j` of a row's next-period indicator as a 0/1 rational. -/
def indQ (r : Row) (j : ℕ) : ℚ := if r.ind.getD j false then 1 else 0

/-- Empirical transition matrix (lines 162–165):
`P[i,j] = np.mean(pd_indicator[pd_lag_indicator[:,i]][:,j])`. -/
def Pmat (rows : List Row) : List (List ℚ) :=
  (List.range 3).map (fun i =>
    (List.range 3).map (fun j => meanQ ((selRows rows i).map (fun r => indQ r j))))

/-- Distorted transition matrix (lines 151–154):
`P̃[i,j] = np.mean(M[pd_lag_indicator[:,i]] * pd_indicator[pd_lag_indicator[:,i]][:,j])`. -/
def PtildeMat (rows : List Row) (M : List ℚ) : List (List ℚ) :=
  (List.range 3).map (fun i =>
    (List.range 3).map (fun j => meanQ ((zSel rows M i).map (fun p => p.2 * indQ p.1 j))))

/-- Conditional expectation of M per state (lines 144–148):
`E[M | state i] = np.mean(M[pd_lag_indicator[:,i]])`. -/
def E_M_cond (rows : List Row) (M : List ℚ) (i : ℕ) : ℚ :=
  meanQ ((zSel rows M i).map (fun p => p.2))

/-- A length-3 boolean indicator row with exactly one `true` entry. -/
def onehot3 (l : List Bool) : Prop := l.length = 3 ∧ (l.filter id).length = 1

theorem onehot3_indQ_sum (r : Row) (h : onehot3 r.ind) :
    indQ r 0 + indQ r 1 + indQ r 2 = 1 := by
  obtain ⟨hlen, hcount⟩ := h
  unfold indQ
  match hr : r.ind, hlen with
  | [b₀, b₁, b₂], _ =>
    rw [hr] at hcount
    cases b₀ <;> cases b₁ <;> cases b₂ <;> simp_all

theorem sum_map_add3 {α : Type} (l : List α) (f g h : α → ℚ) :
    (l.map f).sum + (l.map g).sum + (l.map h).sum =
      (l.map (fun x => f x + g x + h x)).sum := by
  induction l with
  | nil => simp
  | cons a as ih => simp only [List.map_cons, List.sum_cons, ← ih]; ring

/-- Summing one matrix row of per-state means interchanges with the mean:
if the three column contributions of each element add to `G`, the row total is
the mean of `G` over the selected elements. -/
theorem rowSum3 {α : Type} (sel : List α) (F : α → ℕ → ℚ) (G : α → ℚ)
    (hF : ∀ a ∈ sel, F a 0 + F a 1 + F a 2 = G a) :
    ((List.range 3).map (fun j => meanQ (sel.map (fun a => F a j)))).sum =
      meanQ (sel.map G) := by
  have hrange : List.range 3 = [0, 1, 2] := rfl
  rw [hrange]
  simp only [List.map_cons, List.map_nil, List.sum_cons, List.sum_nil, add_zero]
  unfold meanQ
  simp only [List.length_map]
  rw [← add_assoc, div_add_div_same, div_add_div_same, sum_map_add3]
  congr 1
  exact congrArg List.sum (List.map_congr_left hF)

theorem selRows_sub (rows : List Row) (i : ℕ) : ∀ r ∈ selRows rows i, r ∈ rows :=
  fun r hr => List.mem_of_mem_filter hr

/-- Claim C5 (amended): when every next-period indicator row is one-hot and
every state bin is nonempty, every row of the empirical transition matrix `P`
sums exactly to 1; but a row `i` of the distorted matrix `P̃` sums to the
conditional mean `E[M | state i]`, not to 1 in general. -/
theorem C5_row_sums (rows : List Row) (M : List ℚ)
    (hone : ∀ r ∈ rows, onehot3 r.ind)
    (hne : ∀ i < 3, selRows rows i ≠ []) :
    (∀ p ∈ Pmat rows, p.sum = 1) ∧
      (∀ i < 3, ((PtildeMat rows M).getD i []).sum = E_M_cond rows M i) := by
  constructor
  · intro p hp
    unfold Pmat at hp
    obtain ⟨i, hi, rfl⟩ := List.mem_map.mp hp
    have hi3 : i < 3 := List.mem_range.mp hi
    have h1 : ((List.range 3).map
        (fun j => meanQ ((selRows rows i).map (fun a => indQ a j)))).sum =
        meanQ ((selRows rows i).map (fun _ => (1 : ℚ))) := by
      refine rowSum3 (selRows rows i) indQ (fun _ => 1) ?_
      intro r hr
      exact onehot3_indQ_sum r (hone r (selRows_sub rows i r hr))
    rw [h1]
    unfold meanQ
    rw [List.map_const', List.sum_replicate, List.length_replicate, nsmul_eq_mul, mul_one]
    have hlen : (selRows rows i).length ≠ 0 := by
      intro h0
      exact hne i hi3 (List.length_eq_zero.mp h0)
    exact div_self (Nat.cast_ne_zero.mpr hlen)
  · intro i hi3
    have hget : (PtildeMat rows M).getD i [] = (List.range 3).map
        (fun j => meanQ ((zSel rows M i).map (fun p => p.2 * indQ p.1 j))) := by
      unfold PtildeMat
      rw [List.getD_eq_getElem?_getD, List.getElem?_map]
      have : (List.range 3)[i]? = some i := List.getElem?_range hi3
      rw [this]
      rfl
    rw [hget]
    unfold E_M_cond
    refine rowSum3 (zSel rows M i) (fun p j => p.2 * indQ p.1 j) (fun p => p.2) ?_
    intro p hp
    have hpr : p.1 ∈ rows := by
      have hz : p ∈ rows.zip M := List.mem_of_mem_filter hp
      exact (List.of_mem_zip (by exact hz)).1
    have := onehot3_indQ_sum p.1 (hone p.1 hpr)
    calc p.2 * indQ p.1 0 + p.2 * indQ p.1 1 + p.2 * indQ p.1 2
        = p.2 * (indQ p.1 0 + indQ p.1 1 + indQ p.1 2) := by ring
      _ = p.2 := by rw [this, mul_one]

/-- Witness for the amended C5 at a concrete three-row dataset. -/
theorem C5_row_sums_witness :
    (∀ p ∈ Pmat
        [⟨1, [true, false, false], [true, false, false], []⟩,
         ⟨1, [false, true, false], [false, true, false], []⟩,
         ⟨1, [false, false, true], [false, false, true], []⟩], p.sum = 1) ∧
      (∀ i < 3, ((PtildeMat
          [⟨1, [true, false, false], [true, false, false], []⟩,
           ⟨1, [false, true, false], [false, true, false], []⟩,
           ⟨1, [false, false, true], [false, false, true], []⟩] [2, 3, 4]).getD i []).sum =
        E_M_cond
          [⟨1, [true, false, false], [true, false, false], []⟩,
           ⟨1, [false, true, false], [false, true, false], []⟩,
           ⟨1, [false, false, true], [false, false, true], []⟩] [2, 3, 4] i) := by
  refine C5_row_sums _ [2, 3, 4] ?_ ?_
  · intro r hr
    fin_cases hr <;> exact ⟨rfl, rfl⟩
  · intro i hi
    interval_cases i <;> simp [selRows]

/-- Counterexample for C5 as stated: a dataset and a distortion vector `M`
produced by the code's own M-formula (ξ = 1, large moment `g = 10`, zero duals)
on which the clip sends M to 0, so the first row of `P̃` sums to 0 — not 1,
and not within the spec's 1e-6 floating tolerance of 1. -/
theorem C5_counterexample :
    ((PtildeMat
        [⟨10, [true, false, false], [true, false, false], []⟩,
         ⟨10, [false, true, false], [false, true, false], []⟩,
         ⟨10, [false, false, true], [false, false, true], []⟩]
        (M_code true
          [⟨10, [true, false, false], [true, false, false], []⟩,
           ⟨10, [false, true, false], [false, true, false], []⟩,
           ⟨10, [false, false, true], [false, false, true], []⟩]
          [0, 0, 0] [] [0, 0, 0] 0 1)).getD 0 []).sum = 0 ∧
      ¬ |((PtildeMat
        [⟨10, [true, false, false], [true, false, false], []⟩,
         ⟨10, [false, true, false], [false, true, false], []⟩,
         ⟨10, [false, false, true], [false, false, true], []⟩]
        (M_code true
          [⟨10, [true, false, false], [true, false, false], []⟩,
           ⟨10, [false, true, false], [false, true, false], []⟩,
           ⟨10, [false, false, true], [false, false, true], []⟩]
          [0, 0, 0] [] [0, 0, 0] 0 1)).getD 0 []).sum - 1| < 1 / 1000000 := by
  have hM : M_code true
      [⟨10, [true, false, false], [true, false, false], []⟩,
       ⟨10, [false, true, false], [false, true, false], []⟩,
       ⟨10, [false, false, true], [false, false, true], []⟩]
      [0, 0, 0] [] [0, 0, 0] 0 1 = [0, 0, 0] := by
    unfold M_code dotB dotQ clip0
    norm_num [List.zip]
  rw [hM]
  have hP : ((PtildeMat
      [⟨10, [true, false, false], [true, false, false], []⟩,
       ⟨10, [false, true, false], [false, true, false], []⟩,
       ⟨10, [false, false, true], [false, false, true], []⟩]
      ([0, 0, 0] : List ℚ)).getD 0 []).sum = 0 := by
    unfold PtildeMat zSel meanQ indQ
    norm_num [List.range_succ, List.zip, List.filter]
  rw [hP]
  constructor
  · rfl
  · rw [show |(0 : ℚ) - 1| = 1 by rw [zero_sub, abs_neg, abs_one]]
    norm_num

/-- IEEE-style extended value: a finite number, ±∞ or NaN.  This is the value
domain in which the floating-point expression `np.mean(M * np.log(M))` is
evaluated; the finite values stay symbolic rationals. -/
inductive FV where
  | fin (q : ℚ)
  | pinf
  | ninf
  | nan
deriving DecidableEq

/-- IEEE addition on extended values: NaN propagates, `∞ + (−∞) = NaN`. -/
def addF : FV → FV → FV
  | .nan, _ => .nan
  | _, .nan => .nan
  | .pinf, .ninf => .nan
  | .ninf, .pinf => .nan
  | .pinf, _ => .pinf
  | _, .pinf => .pinf
  | .ninf, _ => .ninf
  | _, .ninf => .ninf
  | .fin a, .fin b => .fin (a + b)

/-- IEEE multiplication on extended values: NaN propagates, `0 · ±∞ = NaN`. -/
def mulF : FV → FV → FV
  | .nan, _ => .nan
  | _, .nan => .nan
  | .pinf, .pinf => .pinf
  | .pinf, .ninf => .ninf
  | .ninf, .pinf => .ninf
  | .ninf, .ninf => .pinf
  | .pinf, .fin b => if b = 0 then .nan else if 0 < b then .pinf else .ninf
  | .fin a, .pinf => if a = 0 then .nan else if 0 < a then .pinf else .ninf
  | .ninf, .fin b => if b = 0 then .nan else if 0 < b then .ninf else .pinf
  | .fin a, .ninf => if a = 0 then .nan else if 0 < a then .ninf else .pinf
  | .fin a, .fin b => .fin (a * b)

/-- Logarithm `np.log` on a clipped (hence nonnegative) entry: `log 0 = −∞`, `log` of a
negative argument is NaN, and on positive arguments it is some finite real,
abstracted by `L`. -/
def logF (L : ℚ → ℚ) (q : ℚ) : FV :=
  if q < 0 then .nan else if q = 0 then .ninf else .fin (L q)

/-- Sum of a list of extended values. -/
def sumF (l : List FV) : FV := l.foldr addF (.fin 0)

/-- Division of an extended value by a (positive) array length. -/
def divN (v : FV) (n : ℕ) : FV :=
  match v with
  | .fin a => .fin (a / n)
  | .pinf => .pinf
  | .ninf => .ninf
  | .nan => .nan

/-- Mean `np.mean` on a list of extended values: NaN on an empty slice. -/
def meanF (l : List FV) : FV := if l.length = 0 then .nan else divN (sumF l) l.length

/-- One term `M_t · log(M_t)` of the conditional relative entropy. -/
def xlogxF (L : ℚ → ℚ) (m : ℚ) : FV := mulF (.fin m) (logF L m)

/-- Conditional relative entropy of state `i` (lines 173–177):
`np.mean(M[sel] * np.log(M[sel]))`, evaluated in the extended domain. -/
def RE_cond_F (L : ℚ → ℚ) (rows : List Row) (M : List ℚ) (i : ℕ) : FV :=
  meanF ((zSel rows M i).map (fun p => xlogxF L p.2))

/-- Aggregate relative entropy (line 178): `RE_cond @ π_tilde`. -/
def RE_F (L : ℚ → ℚ) (rows : List Row) (M : List ℚ) (πt : List ℚ) : FV :=
  sumF ((List.range 3).map (fun i => mulF (RE_cond_F L rows M i) (.fin (πt.getD i 0))))

theorem addF_nan_left (x : FV) : addF .nan x = .nan := by cases x <;> rfl

theorem addF_nan_right (x : FV) : addF x .nan = .nan := by cases x <;> rfl

theorem mulF_nan_left (x : FV) : mulF .nan x = .nan := by cases x <;> rfl

theorem sumF_nan (l : List FV) (h : FV.nan ∈ l) : sumF l = .nan := by
  induction l with
  | nil => cases h
  | cons a as ih =>
    rcases List.mem_cons.mp h with rfl | h
    · exact addF_nan_left _
    · unfold sumF at *
      simp only [List.foldr_cons, ih h, addF_nan_right]

theorem sumF_fin (l : List FV) (h : ∀ x ∈ l, ∃ q, x = FV.fin q) :
    ∃ q, sumF l = FV.fin q := by
  induction l with
  | nil => exact ⟨0, rfl⟩
  | cons a as ih =>
    obtain ⟨qa, rfl⟩ := h a (List.mem_cons_self a as)
    obtain ⟨qs, hqs⟩ := ih (fun x hx => h x (List.mem_cons_of_mem _ hx))
    refine ⟨qa + qs, ?_⟩
    unfold sumF at *
    simp only [List.foldr_cons, hqs]
    rfl

theorem xlogxF_zero (L : ℚ → ℚ) : xlogxF L 0 = .nan := by
  unfold xlogxF logF
  norm_num
  rfl

theorem xlogxF_pos (L : ℚ → ℚ) (m : ℚ) (hm : 0 < m) :
    xlogxF L m = .fin (m * L m) := by
  unfold xlogxF logF
  rw [if_neg (not_lt.mpr (le_of_lt hm)), if_neg (ne_of_gt hm)]
  rfl

/-- Claim C10: if the zero-clip on `M` is active on some row of a state — some
selected component of `M` equals exactly 0 — then that state's conditional
relative entropy `np.mean(M·log M)` is NaN (the `0 · log 0` term) and the
aggregate `RE` returned by `iterate` inherits the NaN; conversely, when every
row's distortion is strictly positive (and every state bin is nonempty), the
aggregate `RE` is a well-defined finite value. -/
theorem C10_RE_nan_on_zero_clip (L : ℚ → ℚ) (rows : List Row) (M : List ℚ) (πt : List ℚ) :
    (∀ i, i < 3 → (0 : ℚ) ∈ (zSel rows M i).map (fun p => p.2) →
      RE_cond_F L rows M i = .nan ∧ RE_F L rows M πt = .nan) ∧
    ((∀ p ∈ rows.zip M, 0 < p.2) → (∀ i, i < 3 → zSel rows M i ≠ []) →
      ∃ q, RE_F L rows M πt = .fin q) := by
  constructor
  · intro i hi3 h0
    obtain ⟨p, hp, hp0⟩ := List.mem_map.mp h0
    have hterm : FV.nan ∈ (zSel rows M i).map (fun p => xlogxF L p.2) := by
      refine List.mem_map.mpr ⟨p, hp, ?_⟩
      rw [hp0, xlogxF_zero]
    have hcond : RE_cond_F L rows M i = .nan := by
      unfold RE_cond_F meanF
      have hne : ((zSel rows M i).map (fun p => xlogxF L p.2)).length ≠ 0 := by
        intro hlen
        rw [List.length_eq_zero.mp hlen] at hterm
        cases hterm
      rw [if_neg hne, sumF_nan _ hterm]
      rfl
    refine ⟨hcond, ?_⟩
    unfold RE_F
    refine sumF_nan _ ?_
    refine List.mem_map.mpr ⟨i, List.mem_range.mpr hi3, ?_⟩
    rw [hcond, mulF_nan_left]
  · intro hpos hne
    unfold RE_F
    refine sumF_fin _ ?_
    intro x hx
    obtain ⟨i, hi, rfl⟩ := List.mem_map.mp hx
    have hcond : ∃ q, RE_cond_F L rows M i = .fin q := by
      unfold RE_cond_F meanF
      have hlen : ((zSel rows M i).map (fun p => xlogxF L p.2)).length ≠ 0 := by
        rw [List.length_map]
        intro h0
        exact hne i (List.mem_range.mp hi) (List.length_eq_zero.mp h0)
      rw [if_neg hlen]
      have hfin : ∃ q, sumF ((zSel rows M i).map (fun p => xlogxF L p.2)) = .fin q := by
        refine sumF_fin _ ?_
        intro y hy
        obtain ⟨p, hp, rfl⟩ := List.mem_map.mp hy
        have hp2 : 0 < p.2 := hpos p (List.mem_of_mem_filter hp)
        exact ⟨p.2 * L p.2, xlogxF_pos L p.2 hp2⟩
      obtain ⟨q, hq⟩ := hfin
      rw [hq]
      exact ⟨q / ((zSel rows M i).map (fun p => xlogxF L p.2)).length, rfl⟩
    obtain ⟨q, hq⟩ := hcond
    rw [hq]
    exact ⟨q * πt.getD i 0, rfl⟩

/-- Witness for C10: one observation whose clipped distortion is exactly 0
makes the state-1 conditional RE and the aggregate RE NaN. -/
theorem C10_RE_nan_on_zero_clip_witness :
    RE_cond_F (fun _ => 0) [⟨10, [true], [true], []⟩] [0] 0 = .nan ∧
      RE_F (fun _ => 0) [⟨10, [true], [true], []⟩] [0] [1, 0, 0] = .nan :=
  (C10_RE_nan_on_zero_clip (fun _ => 0) [⟨10, [true], [true], []⟩] [0] [1, 0, 0]).1
    0 (by norm_num) (by simp [zSel, List.zip])

end Beliefs
